import Mathlib

/-!
Verification development for the adaptive thread pool (pool.cpp / pool.h).

The C++ source is shallowly embedded:

* the monitor loop body (`pool::impl::pool_monitor`) becomes the pure step
  function `pool_monitor_iter` over a `MonState` (resize flag, step count,
  worker busy-flag list, thread counter) plus per-tick environment inputs
  (`active_tasks()` and `m_pendingTasks.empty()`);
* `remove_idle_threads` and the `while (pool_size() < next) add_thread()`
  loop become structural recursions `remove_idle_threads` / `add_threads_loop`;
* `unsigned(pool_size() * 1.5f)` and `unsigned(pool_size() / 2.0f)` are
  modelled exactly as IEEE-754 binary32 round-to-nearest-even computations
  (`fmul15trunc`, `fdiv2trunc`) on natural numbers;
* `schedule` and the dequeue portion of `worker_thread` become pure
  functions on task queues;
* the concurrent behaviour (workers, monitor-as-task, destructor) becomes a
  small-step relation `Step` on a global state `GState`, with `Reach` its
  reflexive-transitive closure.

Machine integers (`unsigned int`) are modelled as `Nat`; the places where
wrap-around could matter are noted at each definition.
-/

/-- `unsigned(-1)`, the auto sentinel for `min_threads`. -/
def UINT_MAX : Nat := 2 ^ 32 - 1

/-- The `resize_flags` enum of `pool::impl`. -/
inductive resize_flags
  | flag_no_resize
  | flag_resize_up
  | flag_resize_down
deriving DecidableEq, Repr

/-- Embedding of `pool::impl::compute_min_threads`.  `hc` stands for
`boost::thread::hardware_concurrency()`.  The multiplication by 2 is done in
`unsigned` arithmetic, hence the `% 2 ^ 32`. -/
def compute_min_threads (hc : Nat) (desired_min_threads desired_max_threads : Nat) : Nat :=
  let dmin :=
    if desired_min_threads = UINT_MAX then
      let candidate := hc * 2 % 2 ^ 32
      let candidate := if candidate = 0 then 1 else candidate
      min candidate desired_max_threads
    else desired_min_threads
  if dmin = desired_max_threads then dmin else dmin + 1

/-- Fuel-based binary logarithm (structural, so the kernel can evaluate it):
for `1 ≤ n < 2 ^ fuel`, `blog2 fuel n` is the `k` with `2 ^ k ≤ n < 2 ^ (k+1)`. -/
def blog2 : Nat → Nat → Nat
  | 0, _ => 0
  | fuel + 1, n => if n < 2 then 0 else blog2 fuel (n / 2) + 1

/-- Round a natural number to the nearest IEEE-754 binary32 value
(round-to-nearest, ties-to-even).  Naturals below `2 ^ 24` are exact; above,
the unit in the last place is `2 ^ (k - 23)` where `2 ^ k ≤ n < 2 ^ (k+1)`.
This models the C++ conversion `float(unsigned n)`. -/
def rnd32 (n : Nat) : Nat :=
  if n < 2 ^ 24 then n
  else
    let k := blog2 40 n
    let u := 2 ^ (k - 23)
    let q := n / u
    let r := n % u
    if 2 * r < u then q * u
    else if u < 2 * r then (q + 1) * u
    else if q % 2 = 0 then q * u else (q + 1) * u

/-- Given `m`, round the rational value `m / 2` to the nearest binary32 value
(ties-to-even) and truncate toward zero.  Used for the product
`float(n) * 1.5f`, whose exact value is `3 * rnd32 n / 2`. -/
def truncHalfRnd (m : Nat) : Nat :=
  if m < 2 ^ 24 then m / 2
  else
    let k := blog2 41 m
    let d := 2 ^ (k - 23)
    let q := m / d
    let r := m % d
    let idx := if 2 * r < d then q else if d < 2 * r then q + 1 else
      if q % 2 = 0 then q else q + 1
    idx * 2 ^ (k - 24)

/-- Embedding of `unsigned(pool_size() * RESIZE_UP_FACTOR)` with
`RESIZE_UP_FACTOR = 1.5f`: convert `n` to binary32, multiply by the exactly
representable `1.5`, round the product to binary32, truncate to unsigned. -/
def fmul15trunc (n : Nat) : Nat := truncHalfRnd (3 * rnd32 n)

/-- Embedding of `unsigned(pool_size() / RESIZE_DOWN_FACTOR)` with
`RESIZE_DOWN_FACTOR = 2.0f`: convert `n` to binary32 and halve (exact in
binary32 for normal values), then truncate to unsigned. -/
def fdiv2trunc (n : Nat) : Nat := rnd32 n / 2

/-- The step classification computed at the top of each monitor iteration:
`flag_resize_up` when `active_tasks() == pool_size() && !m_pendingTasks.empty()`,
else `flag_resize_down` when `active_tasks() < pool_size() / 4` (unsigned
integer division), else `flag_no_resize`. -/
def classify (active poolSize : Nat) (queueEmpty : Bool) : resize_flags :=
  if active = poolSize ∧ queueEmpty = false then resize_flags.flag_resize_up
  else if active < poolSize / 4 then resize_flags.flag_resize_down
  else resize_flags.flag_no_resize

/-- Number of idle workers (busy flag `false`) in a worker list. -/
def count_idle : List Bool → Nat
  | [] => 0
  | b :: ts => (if b then 0 else 1) + count_idle ts

/-- Number of busy workers (busy flag `true`) in a worker list. -/
def count_busy : List Bool → Nat
  | [] => 0
  | b :: ts => (if b then 1 else 0) + count_busy ts

/-- Embedding of `pool::impl::remove_idle_threads`, acting on the list of
busy flags: scan the worker list once from the front, skip busy workers,
remove (interrupt + join + erase) idle ones until `count` workers have been
removed or the list is exhausted.  Returns the remaining list and the number
of workers actually removed (each removal also decrements `m_threadCount`,
which the caller accounts for). -/
def remove_idle_threads : List Bool → Nat → List Bool × Nat
  | ts, 0 => (ts, 0)
  | [], _ + 1 => ([], 0)
  | b :: ts, k + 1 =>
    if b then
      let p := remove_idle_threads ts (k + 1)
      (b :: p.1, p.2)
    else
      let p := remove_idle_threads ts k
      (p.1, p.2 + 1)

/-- Embedding of `while (pool_size() < next_pool_size) add_thread();`
run `n` times: each `add_thread` appends a worker whose busy flag starts
`true` (`pool_thread::pool_thread` sets `m_busy = true`) and increments
`m_threadCount`.  The caller passes `n = next_pool_size - pool_size()`
(zero when the pool is already large enough, matching the loop guard). -/
def add_threads_loop : Nat → List Bool → Nat → List Bool × Nat
  | 0, ts, tc => (ts, tc)
  | n + 1, ts, tc => add_threads_loop n (ts ++ [true]) (tc + 1)

/-- The monitor-relevant configuration fixed at construction. -/
structure Config where
  minThreads : Nat
  maxThreads : Nat
  maxStepsUp : Nat
  maxStepsDown : Nat
deriving DecidableEq, Repr

/-- Configuration produced by the `pool::impl` constructor from its
arguments: `m_minThreads = compute_min_threads(min, max)`,
`MAX_STEPS_UP = max(m_resizeUpTolerance, 2u)`,
`MAX_STEPS_DOWN = max(m_resizeDownTolerance, 2u)`. -/
def mkConfig (hc minT maxT tAdd tDel : Nat) : Config :=
  { minThreads := compute_min_threads hc minT maxT
    maxThreads := maxT
    maxStepsUp := max tAdd 2
    maxStepsDown := max tDel 2 }

/-- State mutated across monitor iterations: the locals `resize_flag` and
`step_count` of `pool_monitor`, plus the members `m_threads` (busy flags)
and `m_threadCount` it manipulates. -/
structure MonState where
  resize_flag : resize_flags
  step_count : Nat
  threads : List Bool
  threadCount : Nat
deriving DecidableEq, Repr

/-- One iteration of the `while (m_stopPool == false)` loop body of
`pool::impl::pool_monitor`.  `active` is the value read from
`active_tasks()` and `queueEmpty` the value of `m_pendingTasks.empty()`
during this iteration.  Mirrors the source line by line: classify, then
either reset flag and counter on a flag change, or increment the counter
and fire the grow / shrink action when it reaches the threshold.
(`step_count` is `unsigned` in the source; it wraps only after 2^32
iterations with an unchanged flag, which no claim concerns.) -/
def pool_monitor_iter (cfg : Config) (active : Nat) (queueEmpty : Bool)
    (s : MonState) : MonState :=
  let step_flag := classify active s.threadCount queueEmpty
  if step_flag ≠ s.resize_flag then
    { s with step_count := 0, resize_flag := step_flag }
  else
    let c := s.step_count + 1
    if s.resize_flag = resize_flags.flag_resize_up ∧ c = cfg.maxStepsUp then
      let next := min cfg.maxThreads (fmul15trunc s.threadCount)
      let p := add_threads_loop (next - s.threadCount) s.threads s.threadCount
      { s with threads := p.1, threadCount := p.2,
               resize_flag := resize_flags.flag_no_resize, step_count := 0 }
    else if s.resize_flag = resize_flags.flag_resize_down ∧ c = cfg.maxStepsDown then
      let next := max cfg.minThreads (fdiv2trunc s.threadCount)
      let p := remove_idle_threads s.threads (s.threadCount - next)
      { s with threads := p.1, threadCount := s.threadCount - p.2,
               resize_flag := resize_flags.flag_no_resize, step_count := 0 }
    else
      { s with step_count := c }

/-- Iterate the monitor body over a list of per-tick environment readings. -/
def pool_monitor_run (cfg : Config) : List (Nat × Bool) → MonState → MonState
  | [], s => s
  | e :: es, s => pool_monitor_run cfg es (pool_monitor_iter cfg e.1 e.2 s)

/-- A queued task record: an opaque body identifier plus the optional
absolute schedule time (`boost::system_time`, `none` standing for
`invalid_system_time`, i.e. `is_not_a_date_time()`). -/
structure TaskRec where
  body : Nat
  sched : Option Nat
deriving DecidableEq, Repr

/-- Embedding of `pool::impl::schedule` (run under `m_tasksMutex`): when
`m_stopPool` is set, return leaving the queue untouched and signalling
nobody; otherwise push the record at the tail and call
`m_tasksCondition.notify_one()`.  The second component is the number of
waiters signalled. -/
def schedule (stopPool : Bool) (q : List TaskRec) (t : TaskRec) :
    List TaskRec × Nat :=
  if stopPool then (q, 0) else (q ++ [t], 1)

/-- Embedding of `task_impl::is_on_schedule`:
`m_schedule.is_not_a_date_time() || m_schedule <= get_system_time()`,
with `now` the current time. -/
def is_on_schedule (now : Nat) (t : TaskRec) : Bool :=
  match t.sched with
  | none => true
  | some s => decide (s ≤ now)

/-- Embedding of the dequeue portion of `pool::impl::worker_thread` for a
non-empty queue: take the front task and pop it; when it is not yet on
schedule, push it back at the tail and execute nothing this iteration
(the worker then does a short timed wait); otherwise the popped task is the
one executed.  The first component is the task executed this iteration,
if any. -/
def worker_dequeue_step (now : Nat) : List TaskRec → Option TaskRec × List TaskRec
  | [] => (none, [])
  | t :: rest =>
    if is_on_schedule now t then (some t, rest)
    else (none, rest ++ [t])

/-- Tasks as seen by the global model: the monitor task scheduled by the
constructor, or a user task. -/
inductive GTask
  | mon
  | usr
deriving DecidableEq, Repr

/-- Phase of a pooled worker thread: blocked on the queue condition
(busy flag false), running a task body, or terminated (after observing
stop / an interrupt) but not yet removed from the set. -/
inductive WPhase
  | idle
  | run (t : GTask)
  | exited
deriving DecidableEq, Repr

/-- Global pool state for the interleaving model: `m_stopPool`, the task
queue, the worker set `m_threads` (abstracted to phases), the two counters
`m_activeTasks` and `m_threadCount`, and `detached`, the number of workers
already popped from the set by the destructor (which decrements
`m_threadCount` before joining) whose task body is still finishing. -/
structure GState where
  stop : Bool
  queue : List GTask
  workers : List WPhase
  active : Nat
  tcount : Nat
  detached : Nat
deriving DecidableEq, Repr

/-- Number of workers currently executing some task body. -/
def count_running : List WPhase → Nat
  | [] => 0
  | w :: ws => (match w with | .run _ => 1 | _ => 0) + count_running ws

/-- Number of workers currently executing the monitor body. -/
def count_mon_running : List WPhase → Nat
  | [] => 0
  | w :: ws => (if w = WPhase.run GTask.mon then 1 else 0) + count_mon_running ws

/-- Number of copies of the monitor task in the queue. -/
def count_mon_queued : List GTask → Nat
  | [] => 0
  | t :: q => (if t = GTask.mon then 1 else 0) + count_mon_queued q

/-- The monitor body is currently running on some worker. -/
def monRunning (s : GState) : Prop := WPhase.run GTask.mon ∈ s.workers

/-- Whether a phase is a running phase. -/
def isRun : WPhase → Bool
  | .run _ => true
  | _ => false

/-- The constructor loop `while (pool_size() < m_minThreads) add_thread();`
starting from the empty pool, unrolled `n` times (`n = m_minThreads`, since
the pool starts empty): each `add_thread` appends a worker and increments
`m_threadCount`.  A freshly spawned worker has no task yet, so its phase is
`idle`. -/
def spawnN : Nat → List WPhase → Nat → List WPhase × Nat
  | 0, ws, tc => (ws, tc)
  | n + 1, ws, tc => spawnN n (ws ++ [WPhase.idle]) (tc + 1)

/-- Initial worker set and thread count built by the constructor. -/
def buildWorkers (target : Nat) : List WPhase × Nat := spawnN target [] 0

/-- The constructor creates the monitor iff `m_minThreads < m_maxThreads`,
where `m_minThreads = compute_min_threads(min_threads, max_threads)`. -/
def monitor_created (hc minT maxT : Nat) : Bool :=
  compute_min_threads hc minT maxT < maxT

/-- State right after `pool::impl::impl(min, max, ...)` returns: the
initial workers have been spawned and, iff `m_minThreads < m_maxThreads`,
the monitor has been pushed through `schedule` onto the (previously empty)
task queue.  No task has started yet, so `m_activeTasks` is 0. -/
def constructState (hc minT maxT : Nat) : GState :=
  let m := compute_min_threads hc minT maxT
  let bw := buildWorkers m
  { stop := false
    queue := if monitor_created hc minT maxT then [GTask.mon] else []
    workers := bw.1
    active := 0
    tcount := bw.2
    detached := 0 }

/-- Interleaved small-step semantics of the pool.  Each constructor is the
effect, on the modelled variables, of one code region executed by some
thread:

* `submit`: `schedule` called by a user while the pool is alive.
* `tbegin`: a worker (checking `m_stopPool` first) pops the front task,
  sets its busy flag, releases the queue mutex and does `++m_activeTasks`
  just before invoking the body.
* `tfinish`: the task body returns and the worker does `--m_activeTasks`;
  `pool_monitor` only returns once `m_stopPool` is set, hence the guard for
  the monitor task.  The worker heads back to the queue wait.
* `idleExit`: a waiting worker wakes, observes `m_stopPool`, and returns.
* `grow` / `shrink`: one `add_thread` from the monitor grow loop /
  one removal from `remove_idle_threads` (only a worker whose busy flag is
  false, i.e. blocked in the queue wait, is interrupted and removed).
* `setStop`: the destructor sets `m_stopPool = true`.
* `clearQueue`: the destructor in `shutdown_option_cancel_tasks` mode
  drains `m_pendingTasks`.
* `dtorPop`: one iteration of the destructor loop `remove_thread()`:
  pop the last worker from `m_threads` and decrement `m_threadCount`
  (this happens before the join); a still-running popped worker becomes
  `detached` until its body finishes.
* `detachedFinish`: the body of a popped worker returns, doing
  `--m_activeTasks` (the destructor's join unblocks then).
-/
inductive Step : GState → GState → Prop
  | submit (s : GState) (hstop : s.stop = false) :
      Step s { s with queue := s.queue ++ [GTask.usr] }
  | tbegin (s : GState) (l r : List WPhase) (t : GTask) (q' : List GTask)
      (hstop : s.stop = false)
      (hw : s.workers = l ++ WPhase.idle :: r)
      (hq : s.queue = t :: q') :
      Step s { s with workers := l ++ WPhase.run t :: r, queue := q',
                      active := s.active + 1 }
  | tfinish (s : GState) (l r : List WPhase) (t : GTask)
      (hw : s.workers = l ++ WPhase.run t :: r)
      (hmon : t = GTask.mon → s.stop = true) :
      Step s { s with workers := l ++ WPhase.idle :: r, active := s.active - 1 }
  | idleExit (s : GState) (l r : List WPhase)
      (hstop : s.stop = true)
      (hw : s.workers = l ++ WPhase.idle :: r) :
      Step s { s with workers := l ++ WPhase.exited :: r }
  | grow (s : GState) (hmon : monRunning s) :
      Step s { s with workers := s.workers ++ [WPhase.idle], tcount := s.tcount + 1 }
  | shrink (s : GState) (l r : List WPhase)
      (hmon : monRunning s)
      (hw : s.workers = l ++ WPhase.idle :: r) :
      Step s { s with workers := l ++ r, tcount := s.tcount - 1 }
  | setStop (s : GState) :
      Step s { s with stop := true }
  | clearQueue (s : GState) (hstop : s.stop = true) :
      Step s { s with queue := [] }
  | dtorPop (s : GState) (l : List WPhase) (w : WPhase)
      (hstop : s.stop = true)
      (hw : s.workers = l ++ [w]) :
      Step s { s with workers := l, tcount := s.tcount - 1,
                      detached := s.detached + (if isRun w then 1 else 0) }
  | detachedFinish (s : GState) (hd : 0 < s.detached) :
      Step s { s with active := s.active - 1, detached := s.detached - 1 }

/-- Reflexive-transitive closure of `Step`: the states reachable from a
given initial state. -/
inductive Reach : GState → GState → Prop
  | refl (s : GState) : Reach s s
  | step {a b c : GState} (hr : Reach a b) (hs : Step b c) : Reach a c

/-- Claim-side resolution of the auto sentinel, following the words of the
spec: `clamp(hardware_parallelism × 2, 1, max)`.  Stated separately from
the source-side `compute_min_threads` so the two can be compared. -/
def spec_resolved_min (hc minT maxT : Nat) : Nat :=
  if minT = UINT_MAX then min maxT (max 1 (hc * 2)) else minT

theorem add_threads_loop_eq (n : Nat) : ∀ ts tc,
    add_threads_loop n ts tc = (ts ++ List.replicate n true, tc + n) := by
  induction n with
  | zero => intro ts tc; simp [add_threads_loop]
  | succ n ih =>
    intro ts tc
    rw [add_threads_loop, ih]
    simp only [List.replicate_succ, List.append_assoc, List.singleton_append,
      Prod.mk.injEq, List.cons_append, List.nil_append]
    refine ⟨by simp, by omega⟩

theorem remove_idle_threads_spec (ts : List Bool) : ∀ k,
    (remove_idle_threads ts k).2 = min k (count_idle ts)
    ∧ count_busy (remove_idle_threads ts k).1 = count_busy ts
    ∧ (remove_idle_threads ts k).1.Sublist ts := by
  induction ts with
  | nil =>
    intro k
    cases k <;> simp [remove_idle_threads, count_idle, count_busy]
  | cons b rest ih =>
    intro k
    cases k with
    | zero => simp [remove_idle_threads, count_idle]
    | succ k =>
      cases b with
      | true =>
        obtain ⟨h1, h2, h3⟩ := ih (k + 1)
        simp only [remove_idle_threads, if_true, count_idle, count_busy]
        refine ⟨by omega, by omega, List.Sublist.cons₂ true h3⟩
      | false =>
        obtain ⟨h1, h2, h3⟩ := ih k
        simp only [remove_idle_threads, if_false, count_idle, count_busy,
          Bool.false_eq_true]
        refine ⟨by omega, by omega, List.Sublist.cons false h3⟩

theorem fmul15trunc_small (n : Nat) (h : n < 2 ^ 22) :
    fmul15trunc n = 3 * n / 2 := by
  have e22 : (2 : Nat) ^ 22 = 4194304 := by norm_num
  have e24 : (2 : Nat) ^ 24 = 16777216 := by norm_num
  unfold fmul15trunc rnd32 truncHalfRnd
  rw [if_pos (show n < 2 ^ 24 by omega), if_pos (show 3 * n < 2 ^ 24 by omega)]

theorem fdiv2trunc_small (n : Nat) (h : n < 2 ^ 24) :
    fdiv2trunc n = n / 2 := by
  unfold fdiv2trunc rnd32
  rw [if_pos h]

theorem spawnN_eq (n : Nat) : ∀ ws tc,
    spawnN n ws tc = (ws ++ List.replicate n WPhase.idle, tc + n) := by
  induction n with
  | zero => intro ws tc; simp [spawnN]
  | succ n ih =>
    intro ws tc
    rw [spawnN, ih]
    simp only [List.replicate_succ, List.append_assoc, List.singleton_append,
      Prod.mk.injEq, List.cons_append, List.nil_append]
    refine ⟨by simp, by omega⟩

theorem buildWorkers_eq (m : Nat) :
    buildWorkers m = (List.replicate m WPhase.idle, m) := by
  rw [buildWorkers, spawnN_eq]
  simp

theorem count_running_append (l r : List WPhase) :
    count_running (l ++ r) = count_running l + count_running r := by
  induction l with
  | nil => simp [count_running]
  | cons w l ih => simp [count_running, ih]; omega

theorem count_mon_running_append (l r : List WPhase) :
    count_mon_running (l ++ r) = count_mon_running l + count_mon_running r := by
  induction l with
  | nil => simp [count_mon_running]
  | cons w l ih => simp [count_mon_running, ih]; omega

theorem count_mon_queued_append (l r : List GTask) :
    count_mon_queued (l ++ r) = count_mon_queued l + count_mon_queued r := by
  induction l with
  | nil => simp [count_mon_queued]
  | cons t l ih => simp [count_mon_queued, ih]; omega

theorem count_running_replicate (n : Nat) :
    count_running (List.replicate n WPhase.idle) = 0 := by
  induction n with
  | zero => simp [count_running]
  | succ n ih => simp [List.replicate_succ, count_running, ih]

theorem count_mon_running_replicate (n : Nat) :
    count_mon_running (List.replicate n WPhase.idle) = 0 := by
  induction n with
  | zero => simp [count_mon_running]
  | succ n ih => simp [List.replicate_succ, count_mon_running, ih]

theorem count_mon_running_le (ws : List WPhase) :
    count_mon_running ws ≤ count_running ws := by
  induction ws with
  | nil => simp [count_mon_running, count_running]
  | cons w ws ih =>
    cases w with
    | idle => simpa [count_mon_running, count_running] using ih
    | exited => simpa [count_mon_running, count_running] using ih
    | run t =>
      have h : (if WPhase.run t = WPhase.run GTask.mon then 1 else 0) ≤ 1 := by
        split <;> omega
      simp only [count_mon_running, count_running]
      omega

theorem count_mon_running_pos_of_mem {ws : List WPhase}
    (h : WPhase.run GTask.mon ∈ ws) : 1 ≤ count_mon_running ws := by
  induction ws with
  | nil => simp at h
  | cons w ws ih =>
    rcases List.mem_cons.mp h with h | h
    · simp [count_mon_running, ← h]
    · have := ih h
      simp only [count_mon_running]
      omega

/-- The shutdown flag is monotonic: once `m_stopPool` is set no step clears it. -/
theorem step_stop_mono {a b : GState} (h : Step a b) (ha : a.stop = true) :
    b.stop = true := by
  cases h <;> simp_all

/-- If a reachable state has the stop flag clear, so did every earlier state. -/
theorem reach_stop_false {a c : GState} (h : Reach a c) :
    c.stop = false → a.stop = false := by
  induction h with
  | refl => exact id
  | step hr hs ih =>
    intro hc
    apply ih
    rename_i b' c'
    cases hb : b'.stop
    · rfl
    · rw [step_stop_mono hs hb] at hc
      cases hc

/-- The relation maintained between the two counters and the worker set:
`m_activeTasks` equals the number of running task bodies (including those
of workers already popped by the destructor), and `m_threadCount` equals
the worker-set cardinality. -/
def counters_ok (s : GState) : Prop :=
  s.active = count_running s.workers + s.detached
  ∧ s.tcount = s.workers.length

theorem step_counters_ok {a b : GState} (h : Step a b) (ha : counters_ok a) :
    counters_ok b := by
  obtain ⟨h1, h2⟩ := ha
  cases h with
  | submit hstop => exact ⟨h1, h2⟩
  | tbegin l r t q' hstop hw hq =>
    refine ⟨?_, ?_⟩
    · show a.active + 1 = count_running (l ++ WPhase.run t :: r) + a.detached
      rw [hw] at h1
      rw [count_running_append] at h1 ⊢
      simp only [count_running] at h1 ⊢
      omega
    · show a.tcount = (l ++ WPhase.run t :: r).length
      rw [hw] at h2
      simpa using h2
  | tfinish l r t hw hmon =>
    refine ⟨?_, ?_⟩
    · show a.active - 1 = count_running (l ++ WPhase.idle :: r) + a.detached
      rw [hw] at h1
      rw [count_running_append] at h1 ⊢
      simp only [count_running] at h1 ⊢
      omega
    · show a.tcount = (l ++ WPhase.idle :: r).length
      rw [hw] at h2
      simpa using h2
  | idleExit l r hstop hw =>
    refine ⟨?_, ?_⟩
    · show a.active = count_running (l ++ WPhase.exited :: r) + a.detached
      rw [hw] at h1
      rw [count_running_append] at h1 ⊢
      simp only [count_running] at h1 ⊢
      omega
    · show a.tcount = (l ++ WPhase.exited :: r).length
      rw [hw] at h2
      simpa using h2
  | grow hmon =>
    refine ⟨?_, ?_⟩
    · show a.active = count_running (a.workers ++ [WPhase.idle]) + a.detached
      rw [count_running_append]
      simp only [count_running]
      omega
    · show a.tcount + 1 = (a.workers ++ [WPhase.idle]).length
      simp [h2]
  | shrink l r hmon hw =>
    refine ⟨?_, ?_⟩
    · show a.active = count_running (l ++ r) + a.detached
      rw [hw] at h1
      rw [count_running_append] at h1 ⊢
      simp only [count_running] at h1
      omega
    · show a.tcount - 1 = (l ++ r).length
      rw [hw] at h2
      simp only [List.length_append, List.length_cons] at h2
      simp only [List.length_append]
      omega
  | setStop => exact ⟨h1, h2⟩
  | clearQueue hstop => exact ⟨h1, h2⟩
  | dtorPop l w hstop hw =>
    refine ⟨?_, ?_⟩
    · show a.active = count_running l + (a.detached + if isRun w = true then 1 else 0)
      rw [hw] at h1
      rw [count_running_append] at h1
      simp only [count_running] at h1
      cases w <;> simp [isRun] at h1 ⊢ <;> omega
    · show a.tcount - 1 = l.length
      rw [hw] at h2
      simp only [List.length_append, List.length_cons, List.length_nil] at h2
      omega
  | detachedFinish hd =>
    refine ⟨?_, ?_⟩
    · show a.active - 1 = count_running a.workers + (a.detached - 1)
      omega
    · exact h2

theorem reach_counters_ok {a b : GState} (h : Reach a b) (ha : counters_ok a) :
    counters_ok b := by
  induction h with
  | refl => exact ha
  | step hr hs ih => exact step_counters_ok hs ih

theorem construct_counters_ok (hc minT maxT : Nat) :
    counters_ok (constructState hc minT maxT) := by
  unfold counters_ok constructState
  simp [buildWorkers_eq, count_running_replicate]

/-- While the pool is not stopping, exactly one copy of the monitor task
exists: either still queued or running on some worker. -/
theorem step_mon_conserved {a b : GState} (h : Step a b) (hb : b.stop = false)
    (ha : count_mon_queued a.queue + count_mon_running a.workers = 1) :
    count_mon_queued b.queue + count_mon_running b.workers = 1 := by
  cases h with
  | submit hstop =>
    show count_mon_queued (a.queue ++ [GTask.usr]) + count_mon_running a.workers = 1
    rw [count_mon_queued_append]
    simp [count_mon_queued]
    omega
  | tbegin l r t q' hstop hw hq =>
    show count_mon_queued q' + count_mon_running (l ++ WPhase.run t :: r) = 1
    rw [hw, hq] at ha
    rw [count_mon_running_append] at ha ⊢
    simp only [count_mon_queued, count_mon_running] at ha ⊢
    cases t <;> simp at ha ⊢ <;> omega
  | tfinish l r t hw hmon =>
    have hst : a.stop = false := hb
    cases t with
    | mon => exact absurd (hmon rfl) (by simp [hst])
    | usr =>
      show count_mon_queued a.queue + count_mon_running (l ++ WPhase.idle :: r) = 1
      rw [hw] at ha
      rw [count_mon_running_append] at ha ⊢
      simp only [count_mon_running] at ha ⊢
      simp at ha ⊢
      omega
  | idleExit l r hstop hw =>
    have hst : a.stop = false := hb
    simp [hstop] at hst
  | grow hmon =>
    show count_mon_queued a.queue + count_mon_running (a.workers ++ [WPhase.idle]) = 1
    rw [count_mon_running_append]
    simp [count_mon_running]
    omega
  | shrink l r hmon hw =>
    show count_mon_queued a.queue + count_mon_running (l ++ r) = 1
    rw [hw] at ha
    rw [count_mon_running_append] at ha ⊢
    simp only [count_mon_running] at ha
    simp at ha
    omega
  | setStop => simp at hb
  | clearQueue hstop =>
    have hst : a.stop = false := hb
    simp [hstop] at hst
  | dtorPop l w hstop hw =>
    have hst : a.stop = false := hb
    simp [hstop] at hst
  | detachedFinish hd => exact ha

theorem reach_mon_conserved {a c : GState} (h : Reach a c)
    (ha : count_mon_queued a.queue + count_mon_running a.workers = 1) :
    c.stop = false → count_mon_queued c.queue + count_mon_running c.workers = 1 := by
  induction h with
  | refl => intro _; exact ha
  | step hr hs ih =>
    intro hc
    rename_i b' c'
    cases hb' : b'.stop with
    | false => exact step_mon_conserved hs hc (ih hb')
    | true => rw [step_stop_mono hs hb'] at hc; cases hc

/-- When no monitor task was ever created, none ever appears and the thread
count never changes while the pool is not stopping. -/
theorem step_no_mon {a b : GState} {n : Nat} (h : Step a b) (hb : b.stop = false)
    (ha : count_mon_queued a.queue = 0 ∧ count_mon_running a.workers = 0
      ∧ a.tcount = n) :
    count_mon_queued b.queue = 0 ∧ count_mon_running b.workers = 0
      ∧ b.tcount = n := by
  obtain ⟨ha1, ha2, ha3⟩ := ha
  cases h with
  | submit hstop =>
    refine ⟨?_, ha2, ha3⟩
    show count_mon_queued (a.queue ++ [GTask.usr]) = 0
    rw [count_mon_queued_append]
    simp [count_mon_queued]
    omega
  | tbegin l r t q' hstop hw hq =>
    rw [hw] at ha2
    rw [hq] at ha1
    rw [count_mon_running_append] at ha2
    simp only [count_mon_queued, count_mon_running] at ha1 ha2
    refine ⟨?_, ?_, ha3⟩
    · show count_mon_queued q' = 0
      omega
    · show count_mon_running (l ++ WPhase.run t :: r) = 0
      rw [count_mon_running_append]
      simp only [count_mon_running]
      cases t <;> simp at ha1 ⊢ <;> omega
  | tfinish l r t hw hmon =>
    rw [hw] at ha2
    rw [count_mon_running_append] at ha2
    simp only [count_mon_running] at ha2
    refine ⟨ha1, ?_, ha3⟩
    show count_mon_running (l ++ WPhase.idle :: r) = 0
    rw [count_mon_running_append]
    simp only [count_mon_running]
    simp at ha2 ⊢
    omega
  | idleExit l r hstop hw =>
    have hst : a.stop = false := hb
    simp [hstop] at hst
  | grow hmon =>
    have := count_mon_running_pos_of_mem hmon
    omega
  | shrink l r hmon hw =>
    have := count_mon_running_pos_of_mem hmon
    omega
  | setStop => simp at hb
  | clearQueue hstop =>
    have hst : a.stop = false := hb
    simp [hstop] at hst
  | dtorPop l w hstop hw =>
    have hst : a.stop = false := hb
    simp [hstop] at hst
  | detachedFinish hd => exact ⟨ha1, ha2, ha3⟩

theorem reach_no_mon {a c : GState} {n : Nat} (h : Reach a c)
    (ha : count_mon_queued a.queue = 0 ∧ count_mon_running a.workers = 0
      ∧ a.tcount = n) :
    c.stop = false → count_mon_queued c.queue = 0
      ∧ count_mon_running c.workers = 0 ∧ c.tcount = n := by
  induction h with
  | refl => intro _; exact ha
  | step hr hs ih =>
    intro hc
    rename_i b' c'
    cases hb' : b'.stop with
    | false => exact step_no_mon hs hc (ih hb')
    | true => rw [step_stop_mono hs hb'] at hc; cases hc

theorem count_running_le_length (ws : List WPhase) :
    count_running ws ≤ ws.length := by
  induction ws with
  | nil => simp [count_running]
  | cons w ws ih =>
    simp only [count_running, List.length_cons]
    cases w <;> simp <;> omega

/-- C1 (confirmed).  Each monitor iteration classifies the step from the
current counters: `flag_resize_up` iff `active_tasks == pool_size` and the
queue is non-empty; otherwise `flag_resize_down` iff
`active_tasks < pool_size / 4` (integer division); otherwise
`flag_no_resize`.  When the classification differs from the current resize
flag, the flag is set to it and the step count reset to 0; otherwise the
step count is incremented (the grow / shrink actions, which fire on the
incremented count, are the subject of C2 and C3). -/
theorem c1_monitor_classification (a n : Nat) (qe : Bool) (cfg : Config)
    (s : MonState) :
    (classify a n qe = resize_flags.flag_resize_up ↔ a = n ∧ qe = false)
    ∧ (¬(a = n ∧ qe = false) →
        (classify a n qe = resize_flags.flag_resize_down ↔ a < n / 4))
    ∧ (¬(a = n ∧ qe = false) → ¬(a < n / 4) →
        classify a n qe = resize_flags.flag_no_resize)
    ∧ (classify a s.threadCount qe ≠ s.resize_flag →
        pool_monitor_iter cfg a qe s =
          { s with resize_flag := classify a s.threadCount qe, step_count := 0 })
    ∧ (classify a s.threadCount qe = s.resize_flag →
        ¬(s.resize_flag = resize_flags.flag_resize_up
            ∧ s.step_count + 1 = cfg.maxStepsUp) →
        ¬(s.resize_flag = resize_flags.flag_resize_down
            ∧ s.step_count + 1 = cfg.maxStepsDown) →
        pool_monitor_iter cfg a qe s = { s with step_count := s.step_count + 1 }) := by
  refine ⟨?_, ?_, ?_, ?_, ?_⟩
  · unfold classify
    split_ifs with h1 h2 <;> simp_all
  · intro h
    unfold classify
    rw [if_neg h]
    split_ifs with h2 <;> simp_all
  · intro h h2
    unfold classify
    rw [if_neg h, if_neg h2]
  · intro hne
    simp only [pool_monitor_iter]
    rw [if_pos hne]
  · intro heq h1 h2
    simp only [pool_monitor_iter]
    rw [if_neg (not_not_intro heq), if_neg h1, if_neg h2]

theorem c1_monitor_classification_w :
    pool_monitor_iter (mkConfig 4 2 16 100 120000) 1 true
      ⟨resize_flags.flag_no_resize, 0, [true, true, true], 3⟩ =
      ⟨resize_flags.flag_no_resize, 1, [true, true, true], 3⟩ := by
  have h := (c1_monitor_classification 1 3 true (mkConfig 4 2 16 100 120000)
    ⟨resize_flags.flag_no_resize, 0, [true, true, true], 3⟩).2.2.2.2
  exact (h (by decide) (by decide) (by decide)).trans (by decide)

/-- C6 (confirmed).  `schedule` under the queue mutex: with the shutdown
flag set it returns with the queue unchanged and signals no waiter; with
the flag clear it appends exactly one record at the tail — previously
queued records and their order intact — and signals exactly one waiter. -/
theorem c6_schedule_shutdown (stopPool : Bool) (q : List TaskRec) (t : TaskRec) :
    (stopPool = true → schedule stopPool q t = (q, 0))
    ∧ (stopPool = false →
        schedule stopPool q t = (q ++ [t], 1)
        ∧ (schedule stopPool q t).1.take q.length = q
        ∧ (schedule stopPool q t).1.length = q.length + 1) := by
  constructor
  · intro h
    simp [schedule, h]
  · intro h
    refine ⟨by simp [schedule, h], ?_, ?_⟩ <;> simp [schedule, h, List.take_left]

theorem c6_schedule_shutdown_w :
    schedule true [⟨1, none⟩] ⟨2, none⟩ = ([⟨1, none⟩], 0)
    ∧ schedule false [⟨1, none⟩] ⟨2, none⟩ = ([⟨1, none⟩, ⟨2, none⟩], 1) :=
  ⟨(c6_schedule_shutdown true [⟨1, none⟩] ⟨2, none⟩).1 rfl,
   ((c6_schedule_shutdown false [⟨1, none⟩] ⟨2, none⟩).2 rfl).1⟩

/-- C7 (confirmed).  A worker that dequeues the front task re-appends it at
the tail (other entries keeping their order) and executes nothing this
iteration when its scheduled time is strictly in the future; a task with no
timestamp, or whose time is `≤` now, is the one executed. -/
theorem c7_deferred_requeue (now : Nat) (t : TaskRec) (rest : List TaskRec) :
    (∀ u, t.sched = some u → now < u →
        worker_dequeue_step now (t :: rest) = (none, rest ++ [t]))
    ∧ (t.sched = none → worker_dequeue_step now (t :: rest) = (some t, rest))
    ∧ (∀ u, t.sched = some u → u ≤ now →
        worker_dequeue_step now (t :: rest) = (some t, rest)) := by
  refine ⟨?_, ?_, ?_⟩
  · intro u hu hlt
    have hb : is_on_schedule now t = false := by
      simp [is_on_schedule, hu]
      omega
    simp [worker_dequeue_step, hb]
  · intro hn
    simp [worker_dequeue_step, is_on_schedule, hn]
  · intro u hu hle
    have hb : is_on_schedule now t = true := by
      simp [is_on_schedule, hu, hle]
    simp [worker_dequeue_step, hb]

theorem c7_deferred_requeue_w :
    worker_dequeue_step 5 [⟨1, some 7⟩, ⟨2, none⟩] = (none, [⟨2, none⟩, ⟨1, some 7⟩])
    ∧ worker_dequeue_step 5 [⟨2, none⟩] = (some ⟨2, none⟩, [])
    ∧ worker_dequeue_step 7 [⟨1, some 7⟩] = (some ⟨1, some 7⟩, []) :=
  ⟨(c7_deferred_requeue 5 ⟨1, some 7⟩ [⟨2, none⟩]).1 7 rfl (by omega),
   (c7_deferred_requeue 5 ⟨2, none⟩ []).2.1 rfl,
   (c7_deferred_requeue 7 ⟨1, some 7⟩ []).2.2 7 rfl (by omega)⟩

/-- C4 (confirmed).  For a construction with `max ≥ min` (or `min` the auto
sentinel): the sentinel resolves exactly to the spec's
`clamp(hardware_parallelism × 2, 1, max)`, and the constructor spawns
exactly `min` workers when the resolved `min` equals `max` and exactly
`min + 1` workers when it is below `max` — before any task has started
(`m_activeTasks = 0`, and the queue holds at most the monitor task).
`hhc` rules out overflow of `hardware_concurrency() * 2`, which is far
below `UINT_MAX` on real hardware. -/
theorem c4_initial_spawn (hc minT maxT : Nat) (hhc : hc * 2 < 2 ^ 32)
    (hpre : minT ≤ maxT ∨ minT = UINT_MAX) :
    (compute_min_threads hc minT maxT =
      if spec_resolved_min hc minT maxT = maxT then spec_resolved_min hc minT maxT
      else spec_resolved_min hc minT maxT + 1)
    ∧ (spec_resolved_min hc minT maxT = maxT →
        (constructState hc minT maxT).tcount = spec_resolved_min hc minT maxT
        ∧ (constructState hc minT maxT).workers.length = spec_resolved_min hc minT maxT)
    ∧ (spec_resolved_min hc minT maxT < maxT →
        (constructState hc minT maxT).tcount = spec_resolved_min hc minT maxT + 1
        ∧ (constructState hc minT maxT).workers.length
          = spec_resolved_min hc minT maxT + 1)
    ∧ (constructState hc minT maxT).active = 0
    ∧ (constructState hc minT maxT).queue =
        (if monitor_created hc minT maxT then [GTask.mon] else []) := by
  have hkey : compute_min_threads hc minT maxT =
      if spec_resolved_min hc minT maxT = maxT then spec_resolved_min hc minT maxT
      else spec_resolved_min hc minT maxT + 1 := by
    unfold compute_min_threads spec_resolved_min
    by_cases hs : minT = UINT_MAX
    · simp only [if_pos hs]
      rw [Nat.mod_eq_of_lt hhc]
      have hCM : (if hc * 2 = 0 then 1 else hc * 2) = max 1 (hc * 2) := by
        by_cases h0 : hc * 2 = 0 <;> simp [h0] <;> omega
      rw [hCM, Nat.min_comm]
    · simp only [if_neg hs]
  have htc : (constructState hc minT maxT).tcount
      = compute_min_threads hc minT maxT := by
    simp [constructState, buildWorkers_eq]
  have hlen : (constructState hc minT maxT).workers.length
      = compute_min_threads hc minT maxT := by
    simp [constructState, buildWorkers_eq]
  refine ⟨hkey, ?_, ?_, rfl, rfl⟩
  · intro hr
    rw [htc, hlen, hkey, if_pos hr]
    exact ⟨rfl, rfl⟩
  · intro hr
    rw [htc, hlen, hkey, if_neg (Nat.ne_of_lt hr)]
    exact ⟨rfl, rfl⟩

theorem c4_initial_spawn_w :
    (constructState 4 2 16).tcount = 3
    ∧ (constructState 4 2 16).workers.length = 3 := by
  have h := (c4_initial_spawn 4 2 16 (by norm_num)
    (Or.inl (by norm_num))).2.2.1 (by decide)
  exact ⟨h.1.trans (by decide), h.2.trans (by decide)⟩

/-- C5 counterexample.  With `min_threads = 1 < 2 = max_threads` the
constructor creates no monitor: `m_minThreads = compute_min_threads(1, 2)
= 2` is not strictly below `m_maxThreads = 2`, so the claim "for every
construction with min < max a monitor is created" fails at `(min, max) =
(1, 2)`. -/
theorem c5_monitor_iff_cx : (1 : Nat) < 2 ∧ monitor_created 4 1 2 = false := by
  decide

/-- C5 (corrected).  The monitor is created iff the *stored*
`m_minThreads = compute_min_threads(min, max)` — the resolved minimum plus
one whenever it is below `max` — is strictly below `max_threads`;
equivalently, for a non-sentinel `min ≤ max`, iff `min + 1 < max`.  With
`min == max` no monitor is created and the pool size stays exactly that
value, and no monitor task ever appears, for as long as the pool is not
being destroyed. -/
theorem c5_monitor_iff (hc minT maxT : Nat) (hs : minT ≠ UINT_MAX)
    (hle : minT ≤ maxT) :
    (monitor_created hc minT maxT = true
      ↔ compute_min_threads hc minT maxT < maxT)
    ∧ (monitor_created hc minT maxT = true ↔ minT + 1 < maxT)
    ∧ monitor_created hc minT minT = false
    ∧ (∀ s, Reach (constructState hc minT minT) s → s.stop = false →
        s.tcount = minT ∧ count_mon_running s.workers = 0
          ∧ count_mon_queued s.queue = 0) := by
  have hcm : compute_min_threads hc minT minT = minT := by
    unfold compute_min_threads
    simp [hs]
  have hcm2 : compute_min_threads hc minT maxT
      = if minT = maxT then minT else minT + 1 := by
    unfold compute_min_threads
    simp [hs]
  have hmc : monitor_created hc minT minT = false := by
    unfold monitor_created
    rw [hcm]
    simp
  refine ⟨by simp [monitor_created], ?_, hmc, ?_⟩
  · unfold monitor_created
    rw [hcm2]
    by_cases he : minT = maxT
    · simp [he]
    · simp [he]
  · intro s hr hstop
    have base : count_mon_queued (constructState hc minT minT).queue = 0
        ∧ count_mon_running (constructState hc minT minT).workers = 0
        ∧ (constructState hc minT minT).tcount = minT := by
      refine ⟨?_, ?_, ?_⟩
      · simp [constructState, hmc, count_mon_queued]
      · simp [constructState, buildWorkers_eq, count_mon_running_replicate]
      · simp [constructState, buildWorkers_eq, hcm]
    have h := reach_no_mon hr base hstop
    exact ⟨h.2.2, h.2.1, h.1⟩

theorem c5_monitor_iff_w :
    monitor_created 4 2 16 = true ∧ (constructState 4 2 2).tcount = 2 := by
  have h := c5_monitor_iff 4 2 16 (by decide) (by decide)
  exact ⟨h.2.1.mpr (by decide), (h.2.2.2 _ (Reach.refl _) rfl).1⟩

/-- C2 counterexample.  At a grow step fired with `pool_size() = 16777219`
(and `max_threads = 2^30`), the code computes
`unsigned(16777219 * 1.5f) = 25165830` — the conversion of 16777219 to
`float` already rounds to 16777220 — whereas the claim's
`min(max_threads, floor(pool_size * 1.5)) = 25165828`.  The claimed target
is off by two, so "new_size = min(max_threads, floor(pool_size * 1.5))"
fails at this state. -/
theorem c2_grow_step_cx :
    (pool_monitor_iter ⟨3, 2 ^ 30, 100, 120000⟩ 16777219 false
        ⟨resize_flags.flag_resize_up, 99, [], 16777219⟩).threadCount = 25165830
    ∧ min (2 ^ 30) (3 * 16777219 / 2) = 25165828
    ∧ (25165830 : Nat) ≠ 25165828 := by
  have hf : fmul15trunc 16777219 = 25165830 := by decide
  refine ⟨?_, by norm_num, by norm_num⟩
  simp only [pool_monitor_iter]
  rw [if_neg (not_not_intro (by decide)), if_pos (by decide), add_threads_loop_eq]
  show 16777219 + (min ((2 : Nat) ^ 30) (fmul15trunc 16777219) - 16777219) = 25165830
  rw [hf]
  norm_num

/-- C2 (corrected).  When the flag is `flag_resize_up` and the incremented
step count reaches `max(timeout_add_ms, 2)`, the monitor computes
`new_size = min(max_threads, unsigned(pool_size() * 1.5f))` — the product
being evaluated in binary32 (`fmul15trunc`), which coincides with
`⌊pool_size × 1.5⌋` for every `pool_size < 2^22` — adds workers one at a
time until `pool_size` equals `new_size` (the loop adds
`new_size - pool_size` workers; for states satisfying the invariant
`pool_size ≤ max_threads`, the final size is exactly `new_size`), and
resets the flag to `flag_no_resize` and the count to 0. -/
theorem c2_grow_step (cfg : Config) (a : Nat) (qe : Bool) (s : MonState)
    (hflag : s.resize_flag = resize_flags.flag_resize_up)
    (hcls : classify a s.threadCount qe = resize_flags.flag_resize_up)
    (hcnt : s.step_count + 1 = cfg.maxStepsUp)
    (hle : s.threadCount ≤ cfg.maxThreads) :
    pool_monitor_iter cfg a qe s =
      { s with
        threads := s.threads ++ List.replicate
          (min cfg.maxThreads (fmul15trunc s.threadCount) - s.threadCount) true,
        threadCount := s.threadCount +
          (min cfg.maxThreads (fmul15trunc s.threadCount) - s.threadCount),
        resize_flag := resize_flags.flag_no_resize, step_count := 0 }
    ∧ (s.threadCount < 2 ^ 22 →
        (pool_monitor_iter cfg a qe s).threadCount =
          min cfg.maxThreads (3 * s.threadCount / 2)
        ∧ min cfg.maxThreads (3 * s.threadCount / 2) =
          min cfg.maxThreads (fmul15trunc s.threadCount)) := by
  have hmain : pool_monitor_iter cfg a qe s =
      { s with
        threads := s.threads ++ List.replicate
          (min cfg.maxThreads (fmul15trunc s.threadCount) - s.threadCount) true,
        threadCount := s.threadCount +
          (min cfg.maxThreads (fmul15trunc s.threadCount) - s.threadCount),
        resize_flag := resize_flags.flag_no_resize, step_count := 0 } := by
    simp only [pool_monitor_iter]
    rw [if_neg (not_not_intro (hcls.trans hflag.symm)), if_pos ⟨hflag, hcnt⟩,
      add_threads_loop_eq]
  refine ⟨hmain, ?_⟩
  intro hsmall
  have hf := fmul15trunc_small s.threadCount hsmall
  rw [hmain]
  refine ⟨?_, by rw [hf]⟩
  show s.threadCount +
      (min cfg.maxThreads (fmul15trunc s.threadCount) - s.threadCount) =
    min cfg.maxThreads (3 * s.threadCount / 2)
  rw [hf]
  omega

theorem c2_grow_step_w :
    pool_monitor_iter (mkConfig 4 2 16 3 5) 3 false
      ⟨resize_flags.flag_resize_up, 2, [true, true, true], 3⟩ =
      ⟨resize_flags.flag_no_resize, 0, [true, true, true, true], 4⟩ := by
  have h := c2_grow_step (mkConfig 4 2 16 3 5) 3 false
    ⟨resize_flags.flag_resize_up, 2, [true, true, true], 3⟩
    rfl (by decide) (by decide) (by decide)
  exact h.1.trans (by decide)

/-- C3 counterexample.  Constructor arguments `min_threads = 2`,
`max_threads = 16` store `m_minThreads = 3` (the `+1` of
`compute_min_threads`).  A shrink step fired at `pool_size() = 4` (all four
workers idle) computes `next = max(m_minThreads, 2) = 3` and removes one
worker, leaving 3 — whereas the claim's "floored at the min_threads value
given to the constructor" predicts `max(2, 4/2) = 2`.  The pool never
shrinks back to the requested minimum of 2. -/
theorem c3_shrink_step_cx :
    (pool_monitor_iter (mkConfig 4 2 16 100 5) 0 true
        ⟨resize_flags.flag_resize_down, 4, [false, false, false, false], 4⟩).threadCount = 3
    ∧ max 2 (4 / 2) = 2 ∧ (3 : Nat) ≠ 2 := by
  decide

/-- C3 (corrected).  When the flag is `flag_resize_down` and the
incremented step count reaches `max(timeout_del_ms, 2)`, the monitor
computes `new_size = max(m_minThreads, unsigned(pool_size() / 2.0f))`,
where `m_minThreads` is the *stored* minimum — the constructor argument
plus one whenever the resolved minimum is below `max_threads` — and the
division is binary32 (equal to `⌊pool_size / 2⌋` for every
`pool_size < 2^24`, hypothesis `hsm`).  It then requests removal of
`pool_size − new_size` workers: scanning the worker set once in order,
removing only workers whose busy flag is false, accepting a shortfall
(`min(requested, number idle)` are removed, each removal decrementing the
thread count), and resets the flag and the count.  (`hmin` is the
reachable-state invariant `m_minThreads ≤ pool_size()`, under which the
`unsigned` subtraction `pool_size() - next_pool_size` cannot wrap.) -/
theorem c3_shrink_step (cfg : Config) (a : Nat) (qe : Bool) (s : MonState)
    (hflag : s.resize_flag = resize_flags.flag_resize_down)
    (hcls : classify a s.threadCount qe = resize_flags.flag_resize_down)
    (hcnt : s.step_count + 1 = cfg.maxStepsDown)
    (hmin : cfg.minThreads ≤ s.threadCount)
    (hsm : s.threadCount < 2 ^ 24) :
    pool_monitor_iter cfg a qe s =
      { s with
        threads := (remove_idle_threads s.threads
          (s.threadCount - max cfg.minThreads (s.threadCount / 2))).1,
        threadCount := s.threadCount - (remove_idle_threads s.threads
          (s.threadCount - max cfg.minThreads (s.threadCount / 2))).2,
        resize_flag := resize_flags.flag_no_resize, step_count := 0 }
    ∧ (remove_idle_threads s.threads
        (s.threadCount - max cfg.minThreads (s.threadCount / 2))).2 =
      min (s.threadCount - max cfg.minThreads (s.threadCount / 2))
        (count_idle s.threads)
    ∧ count_busy (remove_idle_threads s.threads
        (s.threadCount - max cfg.minThreads (s.threadCount / 2))).1 =
      count_busy s.threads
    ∧ (remove_idle_threads s.threads
        (s.threadCount - max cfg.minThreads (s.threadCount / 2))).1.Sublist s.threads
    ∧ fdiv2trunc s.threadCount = s.threadCount / 2 := by
  have hf := fdiv2trunc_small s.threadCount hsm
  have hup : ¬(s.resize_flag = resize_flags.flag_resize_up
      ∧ s.step_count + 1 = cfg.maxStepsUp) := by
    rintro ⟨h, -⟩
    rw [hflag] at h
    cases h
  have hmain : pool_monitor_iter cfg a qe s =
      { s with
        threads := (remove_idle_threads s.threads
          (s.threadCount - max cfg.minThreads (s.threadCount / 2))).1,
        threadCount := s.threadCount - (remove_idle_threads s.threads
          (s.threadCount - max cfg.minThreads (s.threadCount / 2))).2,
        resize_flag := resize_flags.flag_no_resize, step_count := 0 } := by
    simp only [pool_monitor_iter]
    rw [if_neg (not_not_intro (hcls.trans hflag.symm)), if_neg hup,
      if_pos ⟨hflag, hcnt⟩, hf]
  obtain ⟨h1, h2, h3⟩ := remove_idle_threads_spec s.threads
    (s.threadCount - max cfg.minThreads (s.threadCount / 2))
  exact ⟨hmain, h1, h2, h3, hf⟩

theorem c3_shrink_step_w :
    pool_monitor_iter (mkConfig 4 2 16 100 5) 0 true
      ⟨resize_flags.flag_resize_down, 4, [false, true, false], 4⟩ =
      ⟨resize_flags.flag_no_resize, 0, [true, false], 3⟩ := by
  have h := c3_shrink_step (mkConfig 4 2 16 100 5) 0 true
    ⟨resize_flags.flag_resize_down, 4, [false, true, false], 4⟩
    rfl (by decide) (by decide) (by decide) (by decide)
  exact h.1.trans (by decide)

/-- C10 (confirmed).  A grow step fired at `pool_size() = 1` targets
`min(max_threads, unsigned(1 * 1.5f)) = min(max_threads, 1) = 1` and adds
no worker; consequently, for a pool built with `min_threads = 0` and
`max_threads > 1` (stored minimum `compute_min_threads(0, max) = 1`,
starting size 1), no sequence of monitor iterations — grow or shrink —
ever moves the pool size away from one thread. -/
theorem c10_grow_stuck_at_one (hc maxT tAdd tDel : Nat) (hmax : 1 < maxT) :
    fmul15trunc 1 = 1
    ∧ min maxT (fmul15trunc 1) = 1
    ∧ (mkConfig hc 0 maxT tAdd tDel).minThreads = 1
    ∧ (constructState hc 0 maxT).tcount = 1
    ∧ ∀ envs s, s.threadCount = 1 →
        (pool_monitor_run (mkConfig hc 0 maxT tAdd tDel) envs s).threadCount = 1 := by
  have hf1 : fmul15trunc 1 = 1 := by decide
  have hd1 : fdiv2trunc 1 = 0 := by decide
  have h0 : (0 : Nat) ≠ UINT_MAX := by decide
  have hne : (0 : Nat) ≠ maxT := by omega
  have hcm : compute_min_threads hc 0 maxT = 1 := by
    unfold compute_min_threads
    simp [h0, hne]
  have hiter : ∀ a qe (s : MonState), s.threadCount = 1 →
      (pool_monitor_iter (mkConfig hc 0 maxT tAdd tDel) a qe s).threadCount = 1 := by
    intro a qe s h1
    simp only [pool_monitor_iter, mkConfig]
    split
    · exact h1
    · split
      · show (add_threads_loop _ s.threads s.threadCount).2 = 1
        rw [add_threads_loop_eq]
        rw [h1, hf1]
        omega
      · split
        · show s.threadCount - (remove_idle_threads s.threads _).2 = 1
          rw [(remove_idle_threads_spec s.threads _).1]
          rw [h1, hcm, hd1]
          omega
        · exact h1
  refine ⟨hf1, by rw [hf1]; omega, by simp [mkConfig, hcm], ?_, ?_⟩
  · simp [constructState, buildWorkers_eq, hcm]
  · intro envs
    induction envs with
    | nil => intro s h1; exact h1
    | cons e es ih =>
      intro s h1
      exact ih _ (hiter e.1 e.2 s h1)

theorem c10_grow_stuck_at_one_w :
    (pool_monitor_run (mkConfig 4 0 16 100 120000)
      [(1, false), (0, true), (1, false)]
      ⟨resize_flags.flag_no_resize, 0, [true], 1⟩).threadCount = 1 :=
  (c10_grow_stuck_at_one 4 16 100 120000 (by norm_num)).2.2.2.2
    [(1, false), (0, true), (1, false)] _ rfl

/-- C8 counterexample.  Construct with `min = max = 1`, submit one task, a
worker starts running it, the destructor sets the stop flag and its removal
loop pops the worker — `remove_thread` pops the list and decrements
`m_threadCount` before `join` — while the task body is still executing.
The resulting reachable state has `active_tasks() = 1 > 0 = pool_size()`,
falsifying "active_tasks() ≤ pool_size() at every observable point from
construction through destruction". -/
theorem c8_active_le_poolsize_cx :
    Reach (constructState 4 1 1)
      { stop := true, queue := [], workers := [], active := 1, tcount := 0,
        detached := 1 }
    ∧ ¬((1 : Nat) ≤ 0) := by
  have h1 : Step (constructState 4 1 1)
      { stop := false, queue := [GTask.usr], workers := [WPhase.idle],
        active := 0, tcount := 1, detached := 0 } :=
    Step.submit _ rfl
  have h2 : Step
      { stop := false, queue := [GTask.usr], workers := [WPhase.idle],
        active := 0, tcount := 1, detached := 0 }
      { stop := false, queue := [], workers := [WPhase.run GTask.usr],
        active := 1, tcount := 1, detached := 0 } :=
    Step.tbegin _ [] [] GTask.usr [] rfl rfl rfl
  have h3 : Step
      { stop := false, queue := [], workers := [WPhase.run GTask.usr],
        active := 1, tcount := 1, detached := 0 }
      { stop := true, queue := [], workers := [WPhase.run GTask.usr],
        active := 1, tcount := 1, detached := 0 } :=
    Step.setStop _
  have h4 : Step
      { stop := true, queue := [], workers := [WPhase.run GTask.usr],
        active := 1, tcount := 1, detached := 0 }
      { stop := true, queue := [], workers := [], active := 1, tcount := 0,
        detached := 1 } :=
    Step.dtorPop _ [] (WPhase.run GTask.usr) rfl rfl
  exact ⟨Reach.step (Reach.step (Reach.step (Reach.step (Reach.refl _) h1) h2) h3) h4,
    by omega⟩

/-- C8 (corrected).  In every state reachable from construction,
`active_tasks() ≤ pool_size() + detached`, where `detached` counts workers
the destructor's removal loop has already popped (decrementing
`m_threadCount` before the join) whose task body is still finishing.  In
particular `active_tasks() ≤ pool_size()` holds at every observable point
at which no such popped-but-unfinished worker exists — that is, everywhere
from construction up to the destructor's removal loop; only there can the
inequality transiently fail (see the counterexample). -/
theorem c8_active_le_poolsize (hc minT maxT : Nat) (s : GState)
    (hr : Reach (constructState hc minT maxT) s) :
    s.active ≤ s.tcount + s.detached
    ∧ (s.detached = 0 → s.active ≤ s.tcount) := by
  obtain ⟨h1, h2⟩ := reach_counters_ok hr (construct_counters_ok hc minT maxT)
  have hle := count_running_le_length s.workers
  constructor
  · omega
  · intro hd
    omega

theorem c8_active_le_poolsize_w :
    (constructState 4 2 16).active ≤
      (constructState 4 2 16).tcount + (constructState 4 2 16).detached
    ∧ ((constructState 4 2 16).detached = 0 →
        (constructState 4 2 16).active ≤ (constructState 4 2 16).tcount) :=
  c8_active_le_poolsize 4 2 16 _ (Reach.refl _)

/-- C9 counterexample.  Right after construction — a reachable observable
point of the pool's lifetime — the monitor task has been scheduled but no
worker has dequeued it yet, so `active_tasks() = 0`, falsifying "for the
pool's entire lifetime active_tasks() ≥ 1". -/
theorem c9_monitor_occupies_worker_cx :
    monitor_created 4 2 16 = true
    ∧ Reach (constructState 4 2 16) (constructState 4 2 16)
    ∧ ¬(1 ≤ (constructState 4 2 16).active) :=
  ⟨by decide, Reach.refl _, by decide⟩

/-- C9 (corrected).  Whenever a monitor is created it is pushed through the
same `schedule` / queue path as user tasks (the constructed state's queue
is exactly `[monitor]`), to be executed by one of the workers, which
increments the active-task counter before invoking the body.  While the
pool is not stopping, exactly one copy of the monitor task exists — queued
or running — because the body does not return before shutdown; and whenever
it is running, `active_tasks() ≥ 1`, so one of the `pool_size()` workers is
occupied by it.  Before some worker first dequeues the monitor task,
however, `active_tasks()` can be 0 (see the counterexample). -/
theorem c9_monitor_occupies_worker (hc minT maxT : Nat)
    (hcr : monitor_created hc minT maxT = true) :
    (constructState hc minT maxT).queue = [GTask.mon]
    ∧ ∀ s, Reach (constructState hc minT maxT) s → s.stop = false →
        count_mon_queued s.queue + count_mon_running s.workers = 1
        ∧ (1 ≤ count_mon_running s.workers → 1 ≤ s.active) := by
  have hq : (constructState hc minT maxT).queue = [GTask.mon] := by
    simp [constructState, hcr]
  refine ⟨hq, ?_⟩
  intro s hr hstop
  have hbase : count_mon_queued (constructState hc minT maxT).queue
      + count_mon_running (constructState hc minT maxT).workers = 1 := by
    rw [hq]
    simp [count_mon_queued, constructState, buildWorkers_eq,
      count_mon_running_replicate]
  refine ⟨reach_mon_conserved hr hbase hstop, ?_⟩
  intro hrun
  obtain ⟨h1, h2⟩ := reach_counters_ok hr (construct_counters_ok hc minT maxT)
  have hle := count_mon_running_le s.workers
  omega

theorem c9_monitor_occupies_worker_w :
    (constructState 4 2 16).queue = [GTask.mon]
    ∧ count_mon_queued (constructState 4 2 16).queue
      + count_mon_running (constructState 4 2 16).workers = 1 := by
  have h := c9_monitor_occupies_worker 4 2 16 (by decide)
  exact ⟨h.1, (h.2 _ (Reach.refl _) rfl).1⟩
